import Mathlib

/-!
Shallow embedding of the venv-provisioning pipeline of the AWV QGIS plugin
(`plugin_src/hello_qgis/venv_maintainer.py` and the cleanup hook in
`plugin_src/hello_qgis/plugin.py`).

Filesystem and platform state is abstracted into a `SysEnv` record (what
`sys.platform`, `shutil.which`, `Path.is_file` and `Path.is_dir` would
answer); paths are strings joined with `/`.  The QProcess-driven callback
loop (`run_next_command` / `handle_finished`) becomes a recursive function
over the list of process termination reports, producing the final mutable
state of the `VenvMaintainer` object together with an event trace (process
launches, terminations, pip probes/repairs, `on_done` invocations).
-/

namespace VenvPlugin

/-- Substring test on character lists: `sub` occurs somewhere in `l`
(models Python's `sub in s` on strings). -/
def containsSubList (l sub : List Char) : Bool :=
  (List.range (l.length + 1)).any (fun i => sub.isPrefixOf (l.drop i))

/-- Substring test on strings (Python `sub in s`). -/
def containsSub (s sub : String) : Bool :=
  containsSubList s.toList sub.toList

/-- Abstraction of the platform and filesystem facts the maintainer reads:
`sys.platform == "win32"`, `sys.executable`, `shutil.which("python.exe")`,
`Path.home()`, and the `is_file` / `is_dir` answers at the time of the call. -/
structure SysEnv where
  isWin : Bool
  sysExecutable : String
  whichPythonExe : Option String
  homeDir : String
  fileExists : String → Bool
  dirExists : String → Bool

/-- `venv_path_for_plugin` from the source: `Path(plugin_dir) / name`. -/
def venv_path_for_plugin (plugin_dir name : String) : String :=
  plugin_dir ++ "/" ++ name

/-- `venv_python_executable` from the source: `Scripts/python.exe` on
Windows, `bin/python` elsewhere. -/
def venv_python_executable (isWin : Bool) (venv_dir : String) : String :=
  if isWin then venv_dir ++ "/Scripts/python.exe" else venv_dir ++ "/bin/python"

/-- The fixed fallback candidate interpreters checked on Windows by
`VenvMaintainer._get_python_executable`. -/
def windowsCandidates (env : SysEnv) : List String :=
  [ env.homeDir ++ "/AppData/Local/Programs/Python/Python312/python.exe",
    "C:/Python312/python.exe",
    "C:/Program Files/Python312/python.exe" ]

/-- The `RuntimeError` message raised by `_get_python_executable` when no
usable interpreter is found. -/
def noInterpreterMsg : String :=
  "No suitable Python installation found. Please install Python 3.12 from https://python.org (user install, no admin needed)."

/-- `VenvMaintainer._get_python_executable`, translated from the source.
On Windows it first consults `shutil.which("python.exe")` and accepts the
result only if it mentions neither QGIS nor the embedded runtime; then the
fixed candidate locations; otherwise it raises `RuntimeError`
(= `Except.error`).  On other platforms it returns `sys.executable`. -/
def get_python_executable (env : SysEnv) : Except String String :=
  if env.isWin then
    let fromWhich : Option String :=
      match env.whichPythonExe with
      | some p =>
          if ¬ containsSub p "QGIS" ∧ ¬ containsSub p "python_embed" then some p
          else none
      | none => none
    match fromWhich with
    | some p => Except.ok p
    | none =>
        match (windowsCandidates env).find? (fun c => env.fileExists c) with
        | some c => Except.ok c
        | none => Except.error noInterpreterMsg
  else
    Except.ok env.sysExecutable

/-- `VenvMaintainer.build_commands`, translated from the source: optional
venv creation (when `venv_dir` is not a directory), then the pip upgrade
of pip/setuptools/wheel, then the installation of `uv`, then one
`uv pip install --upgrade` command per declared package.  Propagates the
`RuntimeError` of `_get_python_executable`. -/
def build_commands (env : SysEnv) (venv_dir : String) (packages : List String) :
    Except String (List (List String)) :=
  match get_python_executable env with
  | Except.error e => Except.error e
  | Except.ok python_exe =>
      let venv_py := venv_python_executable env.isWin venv_dir
      let cmds0 :=
        if env.dirExists venv_dir then []
        else [[python_exe, "-m", "venv", venv_dir]]
      Except.ok
        (cmds0 ++
          [[venv_py, "-m", "pip", "install", "--upgrade", "pip", "setuptools", "wheel"],
           [venv_py, "-m", "pip", "install", "uv"]] ++
          packages.map (fun pkg => [venv_py, "-m", "uv", "pip", "install", "--upgrade", pkg]))

/-- The fields `VenvMaintainer.__init__` sets before wiring up the QProcess:
the state that exists once construction has succeeded. -/
structure InitResult where
  venv_dir : String
  venv_py : String
  step : Nat
  output : String
  commands : List (List String)
deriving Repr, DecidableEq

/-- `VenvMaintainer.__init__`, translated from the source up to the point
where `self.commands = self.build_commands()` runs.  If
`_get_python_executable` raises, the exception propagates out of the
constructor (`Except.error`) and no maintainer object (no pipeline state,
no process) is created. -/
def venvMaintainer_init (env : SysEnv) (plugin_dir : String) (packages : List String)
    (venv_name : String) : Except String InitResult :=
  let venv_dir := venv_path_for_plugin plugin_dir venv_name
  let venv_py := venv_python_executable env.isWin venv_dir
  match build_commands env venv_dir packages with
  | Except.error e => Except.error e
  | Except.ok cmds => Except.ok ⟨venv_dir, venv_py, 0, "", cmds⟩

/-- Modelled from the spec (§4.3 CommandPlanner): rule 1 prepends a
"create environment" command using the located base interpreter exactly
when the environment does not exist; rule 2 appends one command upgrading
the installer tooling; rule 3 appends one command installing the secondary
package manager; rule 4 appends one install/upgrade command per declared
package, preserving order. -/
def plan_spec (interpreter venv_py venv_dir : String) (envExists : Bool)
    (packages : List String) : List (List String) :=
  let rule23 :=
    [[venv_py, "-m", "pip", "install", "--upgrade", "pip", "setuptools", "wheel"],
     [venv_py, "-m", "pip", "install", "uv"]]
  let rule4 := packages.map (fun pkg => [venv_py, "-m", "uv", "pip", "install", "--upgrade", pkg])
  let base := rule23 ++ rule4
  if envExists then base else [interpreter, "-m", "venv", venv_dir] :: base

/-- What the filesystem and network answer when the pip probe/repair after a
venv-creation command runs: `pipFile` is the `pip_path.is_file()` check in
`handle_finished`; `pipFileInner` is the check at the top of
`ensure_pip_in_venv`; `downloadOk` is whether `urlretrieve` of get-pip.py
succeeds; `scriptOk` is whether `subprocess.check_call` on get-pip.py
succeeds; `pipAfter` is the `pip_path.is_file()` re-check after a failed
script run. -/
structure ProbeWorld where
  pipFile : Bool
  pipFileInner : Bool
  downloadOk : Bool
  scriptOk : Bool
  pipAfter : Bool
deriving Repr, DecidableEq

/-- The possible control-flow outcomes of `VenvMaintainer.ensure_pip_in_venv`.
Every branch of the Python function returns normally; the constructors record
which log/dialog side effect happened on the way out. -/
inductive RepairOutcome where
  /-- pip already present: early return. -/
  | alreadyPresent
  /-- downloading get-pip.py failed: critical log, return. -/
  | downloadFailed
  /-- get-pip.py ran successfully. -/
  | installed
  /-- get-pip.py failed but pip is present afterwards: warning log. -/
  | warnedPresent
  /-- get-pip.py failed and pip is still missing: critical log and error dialog. -/
  | criticalMissing
deriving Repr, DecidableEq

/-- `VenvMaintainer.ensure_pip_in_venv`, translated from the source.  The
function never raises and never touches the pipeline state; its outcome is
pure diagnostics. -/
def ensure_pip_in_venv (w : ProbeWorld) : RepairOutcome :=
  if w.pipFileInner then RepairOutcome.alreadyPresent
  else if ¬ w.downloadOk then RepairOutcome.downloadFailed
  else if w.scriptOk then RepairOutcome.installed
  else if w.pipAfter then RepairOutcome.warnedPresent
  else RepairOutcome.criticalMissing

/-- The venv-creation test in `handle_finished`:
`len(just_ran) >= 3 and just_ran[1:3] == ["-m", "venv"]`. -/
def is_venv_creation (cmd : List String) : Bool :=
  decide (3 ≤ cmd.length) && decide ((cmd.drop 1).take 2 = ["-m", "venv"])

/-- Pipeline status, from the spec's state machine; the Python object has no
explicit field for it, but `Running` corresponds to a started process,
`Succeeded` to the `on_done(True, ...)` branch of `run_next_command` and
`Failed` to the `exitCode != 0` branch of `handle_finished`. -/
inductive Status where
  | pending
  | running
  | succeeded
  | failed
deriving Repr, DecidableEq

/-- One invocation of the `on_done` callback: `on_done(success, venv_dir, output)`. -/
structure DoneCall where
  success : Bool
  venvDir : String
  output : String
deriving Repr, DecidableEq

/-- Observable events of one pipeline run. -/
inductive Event where
  /-- `self.process.start(cmd[0], cmd[1:])` for the command at index `i`. -/
  | launch (i : Nat) (cmd : List String)
  /-- the `finished` signal for command `i` with the given exit code. -/
  | finished (i : Nat) (exitCode : Int)
  /-- the `pip_path.is_file()` probe in `handle_finished` after command `i`. -/
  | probe (i : Nat)
  /-- the call `ensure_pip_in_venv(venv_py)` after command `i`, with its outcome. -/
  | repair (i : Nat) (outcome : RepairOutcome)
  /-- an `on_done` invocation. -/
  | done (success : Bool) (venvDir output : String)
deriving Repr, DecidableEq

/-- Static data of one run: the maintainer's `venv_dir` and `commands`, and
what the filesystem/network would answer if the pip probe runs after command
`i`. -/
structure RunConfig where
  venvDir : String
  commands : List (List String)
  probeWorld : Nat → ProbeWorld

/-- One termination report of a child process: its exit code and the combined
stdout/stderr chunks the maintainer appended to `self.output` while it ran. -/
structure CmdResult where
  exitCode : Int
  chunks : List String
deriving Repr

/-- The mutable state of a `VenvMaintainer` during a run, plus the event
trace and the `on_done` invocations (for observation). -/
structure RunState where
  step : Nat
  output : String
  status : Status
  doneCalls : List DoneCall
  trace : List Event
deriving Repr

/-- The `step >= len(commands)` branch of `run_next_command`: finish the
progress bar and call `on_done(True, venv_dir, output)`. -/
def succeedState (cfg : RunConfig) (s : RunState) : RunState :=
  { s with status := Status.succeeded,
           doneCalls := s.doneCalls ++ [⟨true, cfg.venvDir, s.output⟩],
           trace := s.trace ++ [Event.done true cfg.venvDir s.output] }

/-- The launching branch of `run_next_command`: take the command at
`self.step`, increment `self.step`, append the `Running: ...` banner to
`self.output`, and start the process. -/
def launchState (cfg : RunConfig) (s : RunState) : RunState :=
  let cmd := cfg.commands.getD s.step []
  { s with step := s.step + 1,
           status := Status.running,
           output := s.output ++ "\n\nRunning: " ++ String.intercalate " " cmd ++ "\n",
           trace := s.trace ++ [Event.launch s.step cmd] }

/-- The output chunks delivered by `handle_stdout` / `handle_stderr` while
command `i` ran, followed by the `finished` signal. -/
def finishedState (i : Nat) (r : CmdResult) (s : RunState) : RunState :=
  { s with output := s.output ++ String.join r.chunks,
           trace := s.trace ++ [Event.finished i r.exitCode] }

/-- The venv-creation block at the top of `handle_finished`: when the command
that just ran matches `[_, "-m", "venv", ...]`, check for the pip binary and,
when it is absent, run `ensure_pip_in_venv`.  Runs before the exit code is
inspected. -/
def probeState (cfg : RunConfig) (i : Nat) (cmd : List String) (s : RunState) : RunState :=
  if is_venv_creation cmd then
    if (cfg.probeWorld i).pipFile then
      { s with trace := s.trace ++ [Event.probe i] }
    else
      { s with trace := s.trace ++
          [Event.probe i, Event.repair i (ensure_pip_in_venv (cfg.probeWorld i))] }
  else s

/-- The `exitCode != 0` branch of `handle_finished`: fail the progress bar,
call `on_done(False, venv_dir, output)`, show the error dialog, and return
without launching anything further. -/
def failState (cfg : RunConfig) (s : RunState) : RunState :=
  { s with status := Status.failed,
           doneCalls := s.doneCalls ++ [⟨false, cfg.venvDir, s.output⟩],
           trace := s.trace ++ [Event.done false cfg.venvDir s.output] }

/-- The `run_next_command` / `handle_finished` loop, driven by the list of
termination reports of the child processes.  An empty `results` with commands
still pending models a child process that never reports: the run stays
`Running` forever (the source has no timeout). -/
def runLoop (cfg : RunConfig) : List CmdResult → RunState → RunState
  | [], s =>
      if cfg.commands.length ≤ s.step then succeedState cfg s
      else launchState cfg s
  | r :: rest, s =>
      if cfg.commands.length ≤ s.step then succeedState cfg s
      else
        let s2 := probeState cfg s.step (cfg.commands.getD s.step [])
            (finishedState s.step r (launchState cfg s))
        if r.exitCode ≠ 0 then failState cfg s2 else runLoop cfg rest s2

/-- The state right after `__init__` set up the fields: `step = 0`, empty
output, nothing run yet. -/
def initState : RunState :=
  ⟨0, "", Status.pending, [], []⟩

/-- A whole provisioning run: `start()` from a fresh maintainer, consuming
the given termination reports. -/
def runPipeline (cfg : RunConfig) (results : List CmdResult) : RunState :=
  runLoop cfg results initState

/-- The indices of the `launch` events of a trace, in order. -/
def launches (t : List Event) : List Nat :=
  t.filterMap (fun e => match e with | Event.launch i _ => some i | _ => none)

/-- The indices of the `finished` events of a trace, in order. -/
def finishes (t : List Event) : List Nat :=
  t.filterMap (fun e => match e with | Event.finished i _ => some i | _ => none)

/-- Keep only the process events (launches and terminations) of a trace. -/
def procEvents (t : List Event) : List Event :=
  t.filter (fun e => match e with
    | Event.launch _ _ => true
    | Event.finished _ _ => true
    | _ => false)

/-- The canonical strictly-sequential launch/termination alternation that a
run starting at command index `i` with the given termination reports
produces: launch `i`, its termination, then (only when it exited 0) the
alternation from `i+1`. -/
def altTrace (cfg : RunConfig) : Nat → List CmdResult → List Event
  | i, [] =>
      if cfg.commands.length ≤ i then []
      else [Event.launch i (cfg.commands.getD i [])]
  | i, r :: rest =>
      if cfg.commands.length ≤ i then []
      else
        Event.launch i (cfg.commands.getD i []) :: Event.finished i r.exitCode ::
          (if r.exitCode ≠ 0 then [] else altTrace cfg (i + 1) rest)

/-- A probe world in which the pip binary is present, so the probe performs
no repair: used to state that repair outcomes never influence control flow. -/
def pipPresentWorld : ProbeWorld :=
  ⟨true, true, true, true, true⟩

/-- The same run configuration with a filesystem in which pip is always
present after venv creation (the probe is a no-op). -/
def noRepair (cfg : RunConfig) : RunConfig :=
  { cfg with probeWorld := fun _ => pipPresentWorld }

/-- The tail of trace events that `probeState` appends. -/
def probeTail (cfg : RunConfig) (i : Nat) (cmd : List String) : List Event :=
  if is_venv_creation cmd then
    if (cfg.probeWorld i).pipFile then [Event.probe i]
    else [Event.probe i, Event.repair i (ensure_pip_in_venv (cfg.probeWorld i))]
  else []

/-- The fields of the maintainer that drive control flow (everything except
the observation-only trace). -/
def coreAgrees (s s' : RunState) : Prop :=
  s.step = s'.step ∧ s.output = s'.output ∧ s.status = s'.status ∧ s.doneCalls = s'.doneCalls

/-- A POSIX-like host on which the venv directory does not exist yet:
`sys.platform != "win32"`, so the base interpreter is `sys.executable`. -/
def envPosix : SysEnv :=
  { isWin := false, sysExecutable := "/usr/bin/python3", whichPythonExe := none,
    homeDir := "/home/u", fileExists := fun _ => false, dirExists := fun _ => false }

/-- A Windows host on which `shutil.which` finds nothing and none of the
fixed candidate interpreters exists. -/
def envNoPython : SysEnv :=
  { isWin := true, sysExecutable := "C:/qgis/python.exe", whichPythonExe := none,
    homeDir := "C:/Users/u", fileExists := fun _ => false, dirExists := fun _ => false }

/-- The plan produced on `envPosix` for plugin dir `/plug`, venv name `venv`
and packages `pkgA`, `pkgB` (the spec's two-package scenario). -/
def cmdsAB : List (List String) :=
  [["/usr/bin/python3", "-m", "venv", "/plug/venv"],
   ["/plug/venv/bin/python", "-m", "pip", "install", "--upgrade", "pip", "setuptools", "wheel"],
   ["/plug/venv/bin/python", "-m", "pip", "install", "uv"],
   ["/plug/venv/bin/python", "-m", "uv", "pip", "install", "--upgrade", "pkgA"],
   ["/plug/venv/bin/python", "-m", "uv", "pip", "install", "--upgrade", "pkgB"]]

/-- Run configuration for the two-package scenario with pip present after
venv creation (no repair needed). -/
def cfgAB : RunConfig :=
  ⟨"/plug/venv", cmdsAB, fun _ => pipPresentWorld⟩

/-- Termination reports for the scenario where the first four commands exit 0
and the `pkgB` install exits 2. -/
def rsPkgBFail : List CmdResult :=
  [⟨0, []⟩, ⟨0, []⟩, ⟨0, []⟩, ⟨0, []⟩, ⟨2, ["ERROR: failed to install pkgB"]⟩]

/-- Termination reports with all five commands exiting 0. -/
def rsAllZero : List CmdResult :=
  [⟨0, []⟩, ⟨0, []⟩, ⟨0, []⟩, ⟨0, []⟩, ⟨0, []⟩]

/-- Run configuration for the two-package scenario in which the probe finds
pip missing, get-pip.py downloads but fails, and pip is still missing
afterwards (the worst bootstrap-repair outcome). -/
def cfgRepairMiss : RunConfig :=
  ⟨"/plug/venv", cmdsAB, fun _ => ⟨false, false, true, false, false⟩⟩

/-- Run configuration for the two-package scenario in which the probe finds
pip missing and the download of get-pip.py fails. -/
def cfgDownloadFail : RunConfig :=
  ⟨"/plug/venv", cmdsAB, fun _ => ⟨false, false, false, false, false⟩⟩

theorem probeState_trace (cfg : RunConfig) (i : Nat) (cmd : List String) (s : RunState) :
    (probeState cfg i cmd s).trace = s.trace ++ probeTail cfg i cmd := by
  unfold probeState probeTail
  split
  · split <;> rfl
  · simp

theorem probeState_step (cfg : RunConfig) (i : Nat) (cmd : List String) (s : RunState) :
    (probeState cfg i cmd s).step = s.step := by
  unfold probeState
  split
  · split <;> rfl
  · rfl

theorem probeState_output (cfg : RunConfig) (i : Nat) (cmd : List String) (s : RunState) :
    (probeState cfg i cmd s).output = s.output := by
  unfold probeState
  split
  · split <;> rfl
  · rfl

theorem probeState_status (cfg : RunConfig) (i : Nat) (cmd : List String) (s : RunState) :
    (probeState cfg i cmd s).status = s.status := by
  unfold probeState
  split
  · split <;> rfl
  · rfl

theorem probeState_doneCalls (cfg : RunConfig) (i : Nat) (cmd : List String) (s : RunState) :
    (probeState cfg i cmd s).doneCalls = s.doneCalls := by
  unfold probeState
  split
  · split <;> rfl
  · rfl

theorem coreAgrees_refl (s : RunState) : coreAgrees s s :=
  ⟨rfl, rfl, rfl, rfl⟩

/-- Control flow of the loop never depends on the probe worlds: two runs over
the same commands and venv dir, differing only in what the pip probe finds,
agree on step, output, status and the `on_done` invocations. -/
theorem runLoop_coreAgrees (cfg cfg' : RunConfig)
    (hdir : cfg.venvDir = cfg'.venvDir) (hcmds : cfg.commands = cfg'.commands) :
    ∀ (results : List CmdResult) (s s' : RunState), coreAgrees s s' →
      coreAgrees (runLoop cfg results s) (runLoop cfg' results s') := by
  intro results
  induction results with
  | nil =>
      intro s s' h
      obtain ⟨h1, h2, h3, h4⟩ := h
      simp only [runLoop]
      rw [← hcmds, ← h1]
      by_cases hlen : cfg.commands.length ≤ s.step
      · rw [if_pos hlen, if_pos hlen]
        exact ⟨h1, by simp [succeedState, h2], by simp [succeedState],
          by simp [succeedState, h2, h4, hdir]⟩
      · rw [if_neg hlen, if_neg hlen]
        exact ⟨by simp [launchState, h1], by simp [launchState, h1, h2, hcmds],
          by simp [launchState], by simp [launchState, h4]⟩
  | cons r rest ih =>
      intro s s' h
      obtain ⟨h1, h2, h3, h4⟩ := h
      simp only [runLoop]
      rw [← hcmds, ← h1]
      by_cases hlen : cfg.commands.length ≤ s.step
      · rw [if_pos hlen, if_pos hlen]
        exact ⟨h1, by simp [succeedState, h2], by simp [succeedState],
          by simp [succeedState, h2, h4, hdir]⟩
      · rw [if_neg hlen, if_neg hlen]
        have hs2 : coreAgrees
            (probeState cfg s.step (cfg.commands.getD s.step [])
              (finishedState s.step r (launchState cfg s)))
            (probeState cfg' s.step (cfg.commands.getD s.step [])
              (finishedState s.step r (launchState cfg' s'))) := by
          refine ⟨?_, ?_, ?_, ?_⟩
          · simp [probeState_step, finishedState, launchState, h1]
          · simp [probeState_output, finishedState, launchState, h1, h2, hcmds]
          · simp [probeState_status, finishedState, launchState]
          · simp [probeState_doneCalls, finishedState, launchState, h4]
        obtain ⟨g1, g2, g3, g4⟩ := hs2
        have g1' := g1
        have g2' := g2
        have g4' := g4
        simp only [List.getD_eq_getElem?_getD] at g1' g2' g4'
        by_cases hexit : r.exitCode ≠ 0
        · rw [if_pos hexit, if_pos hexit]
          exact ⟨by simp [failState, g1'], by simp [failState, g2'],
            by simp [failState], by simp [failState, g2', g4', hdir]⟩
        · rw [if_neg hexit, if_neg hexit]
          exact ih _ _ ⟨g1, g2, g3, g4⟩

/-- The loop only appends to the trace. -/
theorem runLoop_trace_mono (cfg : RunConfig) :
    ∀ (results : List CmdResult) (s : RunState),
      ∃ u, (runLoop cfg results s).trace = s.trace ++ u := by
  intro results
  induction results with
  | nil =>
      intro s
      simp only [runLoop]
      by_cases hlen : cfg.commands.length ≤ s.step
      · rw [if_pos hlen]
        exact ⟨_, rfl⟩
      · rw [if_neg hlen]
        exact ⟨_, rfl⟩
  | cons r rest ih =>
      intro s
      simp only [runLoop]
      by_cases hlen : cfg.commands.length ≤ s.step
      · rw [if_pos hlen]
        exact ⟨_, rfl⟩
      · rw [if_neg hlen]
        by_cases hexit : r.exitCode ≠ 0
        · rw [if_pos hexit]
          have h2 : (failState cfg (probeState cfg s.step (cfg.commands.getD s.step [])
              (finishedState s.step r (launchState cfg s)))).trace =
              s.trace ++ ([Event.launch s.step (cfg.commands.getD s.step []),
                Event.finished s.step r.exitCode] ++
                probeTail cfg s.step (cfg.commands.getD s.step []) ++
                [Event.done false cfg.venvDir
                  (probeState cfg s.step (cfg.commands.getD s.step [])
                    (finishedState s.step r (launchState cfg s))).output]) := by
            simp only [failState]
            rw [probeState_trace]
            simp [finishedState, launchState]
          exact ⟨_, h2⟩
        · rw [if_neg hexit]
          obtain ⟨u, hu⟩ := ih (probeState cfg s.step (cfg.commands.getD s.step [])
            (finishedState s.step r (launchState cfg s)))
          have h2 : (runLoop cfg rest (probeState cfg s.step (cfg.commands.getD s.step [])
              (finishedState s.step r (launchState cfg s)))).trace =
              s.trace ++ ([Event.launch s.step (cfg.commands.getD s.step []),
                Event.finished s.step r.exitCode] ++
                probeTail cfg s.step (cfg.commands.getD s.step []) ++ u) := by
            rw [hu, probeState_trace]
            simp [finishedState, launchState]
          exact ⟨_, h2⟩

/-- Once a command reports a non-zero exit code, the run ends `Failed` with
exactly one `on_done` call, carrying `success = false` and the final
aggregated output, and the `on_done` event is the last event of the trace
(no later launch, no later output). -/
theorem runLoop_failed (cfg : RunConfig) :
    ∀ (results : List CmdResult) (s : RunState), s.doneCalls = [] →
      (runLoop cfg results s).status = Status.failed →
      (runLoop cfg results s).doneCalls =
        [⟨false, cfg.venvDir, (runLoop cfg results s).output⟩] ∧
      ∃ t, (runLoop cfg results s).trace =
        t ++ [Event.done false cfg.venvDir (runLoop cfg results s).output] := by
  intro results
  induction results with
  | nil =>
      intro s hdone hfail
      simp only [runLoop] at hfail ⊢
      by_cases hlen : cfg.commands.length ≤ s.step
      · rw [if_pos hlen] at hfail
        simp [succeedState] at hfail
      · rw [if_neg hlen] at hfail
        simp [launchState] at hfail
  | cons r rest ih =>
      intro s hdone hfail
      simp only [runLoop] at hfail ⊢
      by_cases hlen : cfg.commands.length ≤ s.step
      · rw [if_pos hlen] at hfail
        simp [succeedState] at hfail
      · rw [if_neg hlen] at hfail ⊢
        by_cases hexit : r.exitCode ≠ 0
        · rw [if_pos hexit] at hfail ⊢
          constructor
          · simp only [failState]
            simp [probeState_doneCalls, probeState_output, finishedState, launchState, hdone]
          · exact ⟨_, rfl⟩
        · rw [if_neg hexit] at hfail ⊢
          refine ih _ ?_ hfail
          simp [probeState_doneCalls, finishedState, launchState, hdone]

/-- When every consumed report exits 0 and there are enough reports for the
remaining commands, the run ends `Succeeded`, the step counter reaches the
number of planned commands, and `on_done` fires exactly once with
`success = true` and the aggregated output. -/
theorem runLoop_success (cfg : RunConfig) :
    ∀ (results : List CmdResult) (s : RunState), s.doneCalls = [] →
      (∀ r ∈ results, r.exitCode = 0) →
      cfg.commands.length ≤ s.step + results.length →
      s.step ≤ cfg.commands.length →
      (runLoop cfg results s).status = Status.succeeded ∧
      (runLoop cfg results s).step = cfg.commands.length ∧
      (runLoop cfg results s).doneCalls =
        [⟨true, cfg.venvDir, (runLoop cfg results s).output⟩] := by
  intro results
  induction results with
  | nil =>
      intro s hdone _ hlen1 hlen2
      simp only [List.length_nil, Nat.add_zero] at hlen1
      have hstep : cfg.commands.length = s.step := le_antisymm hlen1 hlen2
      simp only [runLoop]
      rw [if_pos (le_of_eq hstep)]
      exact ⟨rfl, by simp [succeedState, hstep], by simp [succeedState, hdone]⟩
  | cons r rest ih =>
      intro s hdone hz hlen1 hlen2
      simp only [runLoop]
      by_cases hlen : cfg.commands.length ≤ s.step
      · rw [if_pos hlen]
        have hstep : cfg.commands.length = s.step := le_antisymm hlen hlen2
        exact ⟨rfl, by simp [succeedState, hstep], by simp [succeedState, hdone]⟩
      · rw [if_neg hlen]
        have hr0 : r.exitCode = 0 := hz r (List.mem_cons_self r rest)
        rw [if_neg (by simp [hr0])]
        refine ih _ ?_ ?_ ?_ ?_
        · simp [probeState_doneCalls, finishedState, launchState, hdone]
        · intro x hx
          exact hz x (List.mem_cons_of_mem r hx)
        · have : (probeState cfg s.step (cfg.commands.getD s.step [])
              (finishedState s.step r (launchState cfg s))).step = s.step + 1 := by
            simp [probeState_step, finishedState, launchState]
          rw [this]
          simp only [List.length_cons] at hlen1
          omega
        · have : (probeState cfg s.step (cfg.commands.getD s.step [])
              (finishedState s.step r (launchState cfg s))).step = s.step + 1 := by
            simp [probeState_step, finishedState, launchState]
          rw [this]
          omega

theorem launches_nil : launches [] = [] := rfl

theorem launches_launch (i : Nat) (cmd : List String) (p : List Event) :
    launches (Event.launch i cmd :: p) = i :: launches p := rfl

theorem launches_finished (i : Nat) (c : Int) (p : List Event) :
    launches (Event.finished i c :: p) = launches p := rfl

theorem finishes_nil : finishes [] = [] := rfl

theorem finishes_launch (i : Nat) (cmd : List String) (p : List Event) :
    finishes (Event.launch i cmd :: p) = finishes p := rfl

theorem finishes_finished (i : Nat) (c : Int) (p : List Event) :
    finishes (Event.finished i c :: p) = i :: finishes p := rfl

theorem procEvents_nil : procEvents [] = [] := rfl

theorem procEvents_append (a b : List Event) :
    procEvents (a ++ b) = procEvents a ++ procEvents b :=
  List.filter_append _ _

theorem procEvents_launch (i : Nat) (cmd : List String) (p : List Event) :
    procEvents (Event.launch i cmd :: p) = Event.launch i cmd :: procEvents p := rfl

theorem procEvents_finished (i : Nat) (c : Int) (p : List Event) :
    procEvents (Event.finished i c :: p) = Event.finished i c :: procEvents p := rfl

theorem procEvents_probe (i : Nat) (p : List Event) :
    procEvents (Event.probe i :: p) = procEvents p := rfl

theorem procEvents_repair (i : Nat) (o : RepairOutcome) (p : List Event) :
    procEvents (Event.repair i o :: p) = procEvents p := rfl

theorem procEvents_done (b : Bool) (v o : String) (p : List Event) :
    procEvents (Event.done b v o :: p) = procEvents p := rfl

theorem procEvents_probeTail (cfg : RunConfig) (i : Nat) (cmd : List String) :
    procEvents (probeTail cfg i cmd) = [] := by
  unfold probeTail
  split
  · split <;> rfl
  · rfl

/-- The process events of a run are exactly the strict alternation
launch 0, termination 0, launch 1, termination 1, ... -/
theorem runLoop_procEvents (cfg : RunConfig) :
    ∀ (results : List CmdResult) (s : RunState),
      procEvents (runLoop cfg results s).trace =
        procEvents s.trace ++ altTrace cfg s.step results := by
  intro results
  induction results with
  | nil =>
      intro s
      simp only [runLoop, altTrace]
      by_cases hlen : cfg.commands.length ≤ s.step
      · rw [if_pos hlen, if_pos hlen]
        simp [succeedState, procEvents_append, procEvents_done, procEvents_nil]
      · rw [if_neg hlen, if_neg hlen]
        simp [launchState, procEvents_append, procEvents_launch, procEvents_nil]
  | cons r rest ih =>
      intro s
      simp only [runLoop, altTrace]
      by_cases hlen : cfg.commands.length ≤ s.step
      · rw [if_pos hlen, if_pos hlen]
        simp [succeedState, procEvents_append, procEvents_done, procEvents_nil]
      · rw [if_neg hlen, if_neg hlen]
        by_cases hexit : r.exitCode ≠ 0
        · rw [if_pos hexit, if_pos hexit]
          simp only [failState]
          rw [probeState_trace]
          simp [finishedState, launchState, procEvents_append, procEvents_probeTail,
            procEvents_done, procEvents_launch, procEvents_finished, procEvents_nil]
        · rw [if_neg hexit, if_neg hexit]
          rw [ih]
          have hstep : (probeState cfg s.step (cfg.commands.getD s.step [])
              (finishedState s.step r (launchState cfg s))).step = s.step + 1 := by
            simp [probeState_step, finishedState, launchState]
          rw [hstep, probeState_trace]
          simp [finishedState, launchState, procEvents_append, procEvents_probeTail,
            procEvents_launch, procEvents_finished, procEvents_nil]

/-- Every prefix of the canonical alternation starting at index `i` launches
the consecutive indices `i, i+1, ...` in order, records terminations in the
same consecutive order, and never has more than one launch without a
matching termination (at most one process in flight). -/
theorem altTrace_prefix_props (cfg : RunConfig) :
    ∀ (rs : List CmdResult) (i : Nat) (p : List Event), p <+: altTrace cfg i rs →
      launches p = List.range' i (launches p).length ∧
      finishes p = List.range' i (finishes p).length ∧
      (launches p).length ≤ (finishes p).length + 1 := by
  intro rs
  induction rs with
  | nil =>
      intro i p hp
      simp only [altTrace] at hp
      by_cases hlen : cfg.commands.length ≤ i
      · rw [if_pos hlen] at hp
        have hp0 : p = [] := List.prefix_nil.mp hp
        subst hp0
        exact ⟨rfl, rfl, by simp [launches_nil, finishes_nil]⟩
      · rw [if_neg hlen] at hp
        rcases List.prefix_cons_iff.mp hp with hp0 | ⟨t, hpt, ht⟩
        · subst hp0
          exact ⟨rfl, rfl, by simp [launches_nil, finishes_nil]⟩
        · have ht0 : t = [] := List.prefix_nil.mp ht
          subst ht0
          subst hpt
          refine ⟨?_, rfl, ?_⟩
          · rw [launches_launch, launches_nil]
            simp [List.range'_one]
          · simp [launches_launch, launches_nil, finishes_launch, finishes_nil]
  | cons r rest ih =>
      intro i p hp
      simp only [altTrace] at hp
      by_cases hlen : cfg.commands.length ≤ i
      · rw [if_pos hlen] at hp
        have hp0 : p = [] := List.prefix_nil.mp hp
        subst hp0
        exact ⟨rfl, rfl, by simp [launches_nil, finishes_nil]⟩
      · rw [if_neg hlen] at hp
        rcases List.prefix_cons_iff.mp hp with hp0 | ⟨t, hpt, ht⟩
        · subst hp0
          exact ⟨rfl, rfl, by simp [launches_nil, finishes_nil]⟩
        · rcases List.prefix_cons_iff.mp ht with ht0 | ⟨t2, ht2, ht2p⟩
          · subst ht0
            subst hpt
            refine ⟨?_, rfl, ?_⟩
            · rw [launches_launch, launches_nil]
              simp [List.range'_one]
            · simp [launches_launch, launches_nil, finishes_launch, finishes_nil]
          · by_cases hexit : r.exitCode ≠ 0
            · rw [if_pos hexit] at ht2p
              have ht20 : t2 = [] := List.prefix_nil.mp ht2p
              subst ht20
              subst ht2
              subst hpt
              refine ⟨?_, ?_, ?_⟩
              · rw [launches_launch, launches_finished, launches_nil]
                simp [List.range'_one]
              · rw [finishes_launch, finishes_finished, finishes_nil]
                simp [List.range'_one]
              · simp [launches_launch, launches_finished, launches_nil,
                  finishes_launch, finishes_finished, finishes_nil]
            · rw [if_neg hexit] at ht2p
              obtain ⟨e1, e2, e3⟩ := ih (i + 1) t2 ht2p
              subst ht2
              subst hpt
              refine ⟨?_, ?_, ?_⟩
              · rw [launches_launch, launches_finished, List.length_cons,
                  List.range'_succ, ← e1]
              · rw [finishes_launch, finishes_finished, List.length_cons,
                  List.range'_succ, ← e2]
              · rw [launches_launch, launches_finished, finishes_launch,
                  finishes_finished, List.length_cons, List.length_cons]
                omega

theorem s2_trace_eq (cfg : RunConfig) (r : CmdResult) (s : RunState) :
    (probeState cfg s.step (cfg.commands.getD s.step [])
      (finishedState s.step r (launchState cfg s))).trace =
    (s.trace ++ [Event.launch s.step (cfg.commands.getD s.step [])]) ++
      ([Event.finished s.step r.exitCode] ++
        probeTail cfg s.step (cfg.commands.getD s.step [])) := by
  rw [probeState_trace]
  simp [finishedState, launchState]

theorem probe_mem_probeTail (cfg : RunConfig) (i : Nat) (cmd : List String) (j : Nat) :
    Event.probe j ∈ probeTail cfg i cmd →
    j = i ∧ is_venv_creation cmd = true ∧
    ∃ t', probeTail cfg i cmd = Event.probe i :: t' := by
  unfold probeTail
  split
  · split
    · intro h
      simp at h
      exact ⟨h, by assumption, ⟨[], rfl⟩⟩
    · intro h
      simp at h
      exact ⟨h, by assumption, ⟨_, rfl⟩⟩
  · intro h
    simp at h

/-- Any pip probe in the trace happened right after the termination report of
a venv-creation command: the trace contains the two adjacent events
"command `i` finished with code `c`" and "probe after command `i`", and the
command at index `i` matches the `-m venv` pattern. -/
theorem runLoop_probe_mem (cfg : RunConfig) :
    ∀ (results : List CmdResult) (s : RunState) (i : Nat),
      Event.probe i ∈ (runLoop cfg results s).trace →
      Event.probe i ∈ s.trace ∨
      (is_venv_creation (cfg.commands.getD i []) = true ∧
       ∃ c, [Event.finished i c, Event.probe i] <:+: (runLoop cfg results s).trace) := by
  intro results
  induction results with
  | nil =>
      intro s i hmem
      simp only [runLoop] at hmem ⊢
      by_cases hlen : cfg.commands.length ≤ s.step
      · rw [if_pos hlen] at hmem ⊢
        rcases List.mem_append.mp hmem with h | h
        · exact Or.inl h
        · simp at h
      · rw [if_neg hlen] at hmem ⊢
        rcases List.mem_append.mp hmem with h | h
        · exact Or.inl h
        · simp at h
  | cons r rest ih =>
      intro s i hmem
      simp only [runLoop] at hmem ⊢
      by_cases hlen : cfg.commands.length ≤ s.step
      · rw [if_pos hlen] at hmem ⊢
        rcases List.mem_append.mp hmem with h | h
        · exact Or.inl h
        · simp at h
      · rw [if_neg hlen] at hmem ⊢
        by_cases hexit : r.exitCode ≠ 0
        · rw [if_pos hexit] at hmem ⊢
          have hmem2 : Event.probe i ∈ (probeState cfg s.step (cfg.commands.getD s.step [])
              (finishedState s.step r (launchState cfg s))).trace := by
            rcases List.mem_append.mp hmem with h | h
            · exact h
            · simp at h
          rw [s2_trace_eq] at hmem2
          rcases List.mem_append.mp hmem2 with h | h
          · rcases List.mem_append.mp h with h' | h'
            · exact Or.inl h'
            · simp at h'
          · rcases List.mem_append.mp h with h' | h'
            · simp at h'
            · obtain ⟨hji, hcr, t', ht'⟩ := probe_mem_probeTail cfg s.step
                (cfg.commands.getD s.step []) i h'
              subst hji
              refine Or.inr ⟨hcr, r.exitCode, ?_⟩
              have hinf : [Event.finished s.step r.exitCode, Event.probe s.step] <:+:
                  (probeState cfg s.step (cfg.commands.getD s.step [])
                    (finishedState s.step r (launchState cfg s))).trace := by
                rw [s2_trace_eq, ht']
                exact ⟨s.trace ++ [Event.launch s.step (cfg.commands.getD s.step [])], t',
                  by simp⟩
              exact hinf.trans (List.prefix_append _ _).isInfix
        · rw [if_neg hexit] at hmem ⊢
          rcases ih _ i hmem with h | h
          · rw [s2_trace_eq] at h
            rcases List.mem_append.mp h with h2 | h2
            · rcases List.mem_append.mp h2 with h' | h'
              · exact Or.inl h'
              · simp at h'
            · rcases List.mem_append.mp h2 with h' | h'
              · simp at h'
              · obtain ⟨hji, hcr, t', ht'⟩ := probe_mem_probeTail cfg s.step
                  (cfg.commands.getD s.step []) i h'
                subst hji
                refine Or.inr ⟨hcr, r.exitCode, ?_⟩
                have hinf : [Event.finished s.step r.exitCode, Event.probe s.step] <:+:
                    (probeState cfg s.step (cfg.commands.getD s.step [])
                      (finishedState s.step r (launchState cfg s))).trace := by
                  rw [s2_trace_eq, ht']
                  exact ⟨s.trace ++ [Event.launch s.step (cfg.commands.getD s.step [])], t',
                    by simp⟩
                obtain ⟨u, hu⟩ := runLoop_trace_mono cfg rest
                  (probeState cfg s.step (cfg.commands.getD s.step [])
                    (finishedState s.step r (launchState cfg s)))
                rw [hu]
                exact hinf.trans (List.prefix_append _ _).isInfix
          · exact Or.inr h

/-- C1: once a command terminates with a non-zero exit code the pipeline
transitions to `Failed`: `on_done` is invoked exactly once, with
`success = false` and the full aggregated output, and the `on_done` event is
the last event of the whole trace — so no further command is launched and
nothing more is appended to the accumulated output after the failure. -/
theorem claim_c1_failed_callback (cfg : RunConfig) (results : List CmdResult)
    (h : (runPipeline cfg results).status = Status.failed) :
    (runPipeline cfg results).doneCalls =
      [⟨false, cfg.venvDir, (runPipeline cfg results).output⟩] ∧
    ∃ t, (runPipeline cfg results).trace =
      t ++ [Event.done false cfg.venvDir (runPipeline cfg results).output] :=
  runLoop_failed cfg results initState rfl h

theorem claim_c1_failed_callback_witness :
    (runPipeline cfgAB rsPkgBFail).status = Status.failed ∧
    ((runPipeline cfgAB rsPkgBFail).doneCalls =
       [⟨false, cfgAB.venvDir, (runPipeline cfgAB rsPkgBFail).output⟩] ∧
     ∃ t, (runPipeline cfgAB rsPkgBFail).trace =
       t ++ [Event.done false cfgAB.venvDir (runPipeline cfgAB rsPkgBFail).output]) :=
  ⟨rfl, claim_c1_failed_callback cfgAB rsPkgBFail rfl⟩

/-- C2: when every planned command terminates with exit code 0, the run ends
`Succeeded`, the step counter equals the number of planned commands, and
`on_done` is invoked exactly once with `success = true`, the venv path and
the aggregated output. -/
theorem claim_c2_success_callback (cfg : RunConfig) (results : List CmdResult)
    (hz : ∀ r ∈ results, r.exitCode = 0)
    (hlen : cfg.commands.length ≤ results.length) :
    (runPipeline cfg results).status = Status.succeeded ∧
    (runPipeline cfg results).step = cfg.commands.length ∧
    (runPipeline cfg results).doneCalls =
      [⟨true, cfg.venvDir, (runPipeline cfg results).output⟩] :=
  runLoop_success cfg results initState rfl hz
    (by show cfg.commands.length ≤ 0 + results.length; omega) (Nat.zero_le _)

theorem claim_c2_success_callback_witness :
    (∀ r ∈ rsAllZero, r.exitCode = 0) ∧
    cfgAB.commands.length ≤ rsAllZero.length ∧
    ((runPipeline cfgAB rsAllZero).status = Status.succeeded ∧
     (runPipeline cfgAB rsAllZero).step = cfgAB.commands.length ∧
     (runPipeline cfgAB rsAllZero).doneCalls =
       [⟨true, cfgAB.venvDir, (runPipeline cfgAB rsAllZero).output⟩]) :=
  ⟨by decide, by decide,
    claim_c2_success_callback cfgAB rsAllZero (by decide) (by decide)⟩

/-- C3: whenever an interpreter is found, the planner's output equals the
spec's reference plan: a venv-creation command (using the base interpreter)
is present iff the venv directory is absent and then comes first; dropping
it leaves exactly the installer-tooling upgrade, then the secondary
package-manager install, then one install/upgrade command per declared
package in input order. -/
theorem claim_c3_plan_refines (env : SysEnv) (venv_dir : String) (packages : List String)
    (py vpy : String) (planned : List (List String))
    (h : get_python_executable env = Except.ok py)
    (hv : vpy = venv_python_executable env.isWin venv_dir)
    (hp : planned = plan_spec py vpy venv_dir (env.dirExists venv_dir) packages) :
    build_commands env venv_dir packages = Except.ok planned ∧
    (([py, "-m", "venv", venv_dir] ∈ planned) ↔ env.dirExists venv_dir = false) ∧
    (env.dirExists venv_dir = false →
      planned.head? = some [py, "-m", "venv", venv_dir]) ∧
    planned.drop (if env.dirExists venv_dir then 0 else 1) =
      [[vpy, "-m", "pip", "install", "--upgrade", "pip", "setuptools", "wheel"],
       [vpy, "-m", "pip", "install", "uv"]] ++
      packages.map (fun pkg => [vpy, "-m", "uv", "pip", "install", "--upgrade", pkg]) := by
  subst hv
  subst hp
  unfold build_commands plan_spec
  rw [h]
  cases hex : env.dirExists venv_dir <;>
    simp [hex, List.mem_map]

theorem claim_c3_plan_refines_witness :
    get_python_executable envPosix = Except.ok "/usr/bin/python3" ∧
    build_commands envPosix "/plug/venv" ["pkgA", "pkgB"] = Except.ok cmdsAB :=
  ⟨rfl, (claim_c3_plan_refines envPosix "/plug/venv" ["pkgA", "pkgB"] "/usr/bin/python3"
      "/plug/venv/bin/python" cmdsAB rfl rfl (by decide)).1⟩

/-- C4: the process events of any run are exactly the strict alternation
"launch 0, termination 0, launch 1, termination 1, ..." produced in planner
order, and in every prefix of that history at most one process is in flight,
the launched indices are consecutive from 0 in order (no skip, no reorder),
and command `i+1` is launched only after command `i` reported termination. -/
theorem claim_c4_strict_sequencing (cfg : RunConfig) (results : List CmdResult)
    (p : List Event) (hp : p <+: procEvents (runPipeline cfg results).trace) :
    procEvents (runPipeline cfg results).trace = altTrace cfg 0 results ∧
    (launches p).length ≤ (finishes p).length + 1 ∧
    launches p = List.range' 0 (launches p).length ∧
    (∀ i, i + 1 ∈ launches p → i ∈ finishes p) := by
  have heq : procEvents (runPipeline cfg results).trace = altTrace cfg 0 results := by
    unfold runPipeline
    rw [runLoop_procEvents cfg results initState]
    rfl
  rw [heq] at hp
  obtain ⟨e1, e2, e3⟩ := altTrace_prefix_props cfg results 0 p hp
  refine ⟨heq, e3, e1, ?_⟩
  intro i hi
  have hmem := List.mem_range'_1.mp (e1 ▸ hi)
  rw [e2]
  apply List.mem_range'_1.mpr
  omega

theorem claim_c4_strict_sequencing_witness :
    procEvents (runPipeline cfgAB rsAllZero).trace = altTrace cfgAB 0 rsAllZero ∧
    (launches (procEvents (runPipeline cfgAB rsAllZero).trace)).length ≤
      (finishes (procEvents (runPipeline cfgAB rsAllZero).trace)).length + 1 ∧
    launches (procEvents (runPipeline cfgAB rsAllZero).trace) =
      List.range' 0 (launches (procEvents (runPipeline cfgAB rsAllZero).trace)).length ∧
    (∀ i, i + 1 ∈ launches (procEvents (runPipeline cfgAB rsAllZero).trace) →
      i ∈ finishes (procEvents (runPipeline cfgAB rsAllZero).trace)) :=
  claim_c4_strict_sequencing cfgAB rsAllZero _ List.prefix_rfl

/-- C5 counterexample: on a host with no usable interpreter the constructor
does not deliver the failure through `on_done` as data — it propagates the
`RuntimeError` (modelled as `Except.error`) to the caller, so an exception
does cross the pipeline/host boundary. -/
theorem claim_c5_cx :
    venvMaintainer_init envNoPython "/plug" ["pkgA"] "venv" =
      Except.error noInterpreterMsg := rfl

/-- C5 (amended): the no-usable-interpreter failure is raised as an exception
out of the constructor — it is surfaced before any command runs and before
any pipeline state or process object is created (`Except.error`, no
`InitResult`), and `on_done` is never invoked for it. -/
theorem claim_c5_error_propagates (env : SysEnv) (plugin_dir : String)
    (packages : List String) (venv_name : String) (e : String)
    (h : get_python_executable env = Except.error e) :
    venvMaintainer_init env plugin_dir packages venv_name = Except.error e := by
  unfold venvMaintainer_init build_commands
  rw [h]

theorem claim_c5_error_propagates_witness :
    get_python_executable envNoPython = Except.error noInterpreterMsg ∧
    venvMaintainer_init envNoPython "/plug2" ["pkgX"] "venv" =
      Except.error noInterpreterMsg :=
  ⟨rfl, claim_c5_error_propagates envNoPython "/plug2" ["pkgX"] "venv" noInterpreterMsg rfl⟩

/-- C6 counterexample: the venv-creation command exits 1 (failure) with pip
absent, yet the probe and the repair run anyway, right after the failed
create — `handle_finished` checks the `-m venv` pattern before looking at
the exit code. -/
theorem claim_c6_cx :
    (runPipeline cfgRepairMiss [⟨1, []⟩]).trace =
      [Event.launch 0 ["/usr/bin/python3", "-m", "venv", "/plug/venv"],
       Event.finished 0 1,
       Event.probe 0,
       Event.repair 0 RepairOutcome.criticalMissing,
       Event.done false "/plug/venv"
         "\n\nRunning: /usr/bin/python3 -m venv /plug/venv\n"] := rfl

/-- C6 (amended): the pip probe runs only immediately after a venv-creation
command reports termination — but regardless of that command's exit code:
any probe in the trace sits directly after the termination event of a
command matching the `-m venv` pattern. -/
theorem claim_c6_probe_placement (cfg : RunConfig) (results : List CmdResult) (i : Nat)
    (h : Event.probe i ∈ (runPipeline cfg results).trace) :
    is_venv_creation (cfg.commands.getD i []) = true ∧
    ∃ c, [Event.finished i c, Event.probe i] <:+: (runPipeline cfg results).trace := by
  rcases runLoop_probe_mem cfg results initState i h with h0 | h1
  · exact absurd h0 (List.not_mem_nil _)
  · exact h1

theorem claim_c6_probe_placement_witness :
    Event.probe 0 ∈ (runPipeline cfgRepairMiss [⟨0, []⟩]).trace ∧
    (is_venv_creation (cfgRepairMiss.commands.getD 0 []) = true ∧
     ∃ c, [Event.finished 0 c, Event.probe 0] <:+:
       (runPipeline cfgRepairMiss [⟨0, []⟩]).trace) :=
  ⟨by decide, claim_c6_probe_placement cfgRepairMiss [⟨0, []⟩] 0 (by decide)⟩

/-- C7 counterexample: the bootstrap repair ends with pip still missing
(`criticalMissing`), yet the pipeline does not take the Failed path of a
command failure: the run keeps executing commands, ends `Succeeded` and
calls `on_done` with `success = true`. -/
theorem claim_c7_cx :
    Event.repair 0 RepairOutcome.criticalMissing ∈
      (runPipeline cfgRepairMiss rsAllZero).trace ∧
    (runPipeline cfgRepairMiss rsAllZero).status = Status.succeeded ∧
    (runPipeline cfgRepairMiss rsAllZero).doneCalls =
      [⟨true, "/plug/venv", (runPipeline cfgRepairMiss rsAllZero).output⟩] :=
  ⟨by decide, rfl, rfl⟩

/-- C7 (amended): when get-pip.py fails, the outcome is a warning iff pip is
present afterwards and a critical log + error dialog iff it is still
missing; in neither case does the pipeline take the Failed path — repair
outcomes never influence the step counter, the output, the status or the
`on_done` calls, so the run proceeds to the next command exactly as when
pip was present. -/
theorem claim_c7_repair_tolerated (w : ProbeWorld) (cfg : RunConfig)
    (results : List CmdResult)
    (h1 : w.pipFileInner = false) (h2 : w.downloadOk = true) (h3 : w.scriptOk = false) :
    ((ensure_pip_in_venv w = RepairOutcome.warnedPresent ↔ w.pipAfter = true) ∧
     (ensure_pip_in_venv w = RepairOutcome.criticalMissing ↔ w.pipAfter = false)) ∧
    coreAgrees (runPipeline cfg results) (runPipeline (noRepair cfg) results) := by
  constructor
  · cases hpa : w.pipAfter <;> simp [ensure_pip_in_venv, h1, h2, h3, hpa]
  · exact runLoop_coreAgrees cfg (noRepair cfg) rfl rfl results initState initState
      (coreAgrees_refl _)

theorem claim_c7_repair_tolerated_witness :
    ((ensure_pip_in_venv ⟨false, false, true, false, false⟩ = RepairOutcome.warnedPresent ↔
        ProbeWorld.pipAfter ⟨false, false, true, false, false⟩ = true) ∧
     (ensure_pip_in_venv ⟨false, false, true, false, false⟩ = RepairOutcome.criticalMissing ↔
        ProbeWorld.pipAfter ⟨false, false, true, false, false⟩ = false)) ∧
    coreAgrees (runPipeline cfgRepairMiss rsAllZero)
      (runPipeline (noRepair cfgRepairMiss) rsAllZero) :=
  claim_c7_repair_tolerated ⟨false, false, true, false, false⟩ cfgRepairMiss rsAllZero
    rfl rfl rfl

/-- C9 counterexample: in the scenario (environment absent, packages
[pkgA, pkgB], first four commands exit 0, install-pkgB exits 2) the step
counter ends at 5, not 3 — and the zero-based index of the failing command
is 4, also not 3. -/
theorem claim_c9_cx :
    (runPipeline cfgAB rsPkgBFail).status = Status.failed ∧
    (runPipeline cfgAB rsPkgBFail).step = 5 ∧
    ¬ (runPipeline cfgAB rsPkgBFail).step = 3 :=
  ⟨rfl, rfl, by decide⟩

set_option maxRecDepth 4000 in
/-- C9 (amended): in that scenario the planner emits exactly the five
commands (create, upgrade installer tooling, install uv, install pkgA,
install pkgB), the run ends `Failed` with the step counter frozen at 5 (the
counter is incremented before each launch, so it holds the one-based index
of the failing command, whose zero-based index is 4), and `on_done` fires
once with `success = false`, the venv path and output containing the pkgB
failure. -/
theorem claim_c9_scenario :
    venvMaintainer_init envPosix "/plug" ["pkgA", "pkgB"] "venv" =
      Except.ok ⟨"/plug/venv", "/plug/venv/bin/python", 0, "", cmdsAB⟩ ∧
    (runPipeline cfgAB rsPkgBFail).status = Status.failed ∧
    (runPipeline cfgAB rsPkgBFail).step = 5 ∧
    (runPipeline cfgAB rsPkgBFail).doneCalls =
      [⟨false, "/plug/venv", (runPipeline cfgAB rsPkgBFail).output⟩] ∧
    containsSub (runPipeline cfgAB rsPkgBFail).output "pkgB" = true ∧
    containsSub (runPipeline cfgAB rsPkgBFail).output
      "ERROR: failed to install pkgB" = true :=
  ⟨rfl, rfl, rfl, rfl, by decide, by decide⟩

/-- C10: when the download of get-pip.py fails, `ensure_pip_in_venv` only
logs and returns (`downloadFailed` outcome, no exception — the function is
total); no failure reaches `on_done` and no `Failed` transition happens on
its account, since repair outcomes never influence the step counter, the
output, the status or the `on_done` calls: the run proceeds to the next
command exactly as when pip was present, even though pip may still be
missing. -/
theorem claim_c10_download_failure (w : ProbeWorld) (cfg : RunConfig)
    (results : List CmdResult)
    (h1 : w.pipFileInner = false) (h2 : w.downloadOk = false) :
    ensure_pip_in_venv w = RepairOutcome.downloadFailed ∧
    coreAgrees (runPipeline cfg results) (runPipeline (noRepair cfg) results) := by
  constructor
  · simp [ensure_pip_in_venv, h1, h2]
  · exact runLoop_coreAgrees cfg (noRepair cfg) rfl rfl results initState initState
      (coreAgrees_refl _)

theorem claim_c10_download_failure_witness :
    ensure_pip_in_venv ⟨false, false, false, false, false⟩ =
      RepairOutcome.downloadFailed ∧
    coreAgrees (runPipeline cfgDownloadFail rsAllZero)
      (runPipeline (noRepair cfgDownloadFail) rsAllZero) :=
  claim_c10_download_failure ⟨false, false, false, false, false⟩ cfgDownloadFail
    rsAllZero rfl rfl

end VenvPlugin
